import Mathlib

/-!
Verification of the calendar resolution and normalization layer of tempus-bede.

The development shallowly embeds the TypeScript sources `src/utils/date.ts`
and `src/utils/calendar.ts`.  The JavaScript `Date` built-ins used there
(`Date.UTC`, `getUTCFullYear`, `getUTCMonth`, `getUTCDate`, and the
local-time accessors `getFullYear`, `getMonth`, `getDate`) are modelled by
the ECMA-262 date arithmetic: a timestamp is an integer count of
milliseconds since the epoch, and the conversion between day numbers and
proleptic Gregorian calendar dates is the standard era-based computation.
The host timezone enters only through the local-time accessors and is
modelled as the value returned by `getTimezoneOffset()` (minutes, positive
west of UTC), threaded as an explicit parameter.
-/

namespace TempusBede

/-- Proleptic Gregorian leap-year test (ECMA-262 `DaysInYear`). -/
def isLeap (y : Int) : Bool :=
  y % 4 == 0 && (y % 100 != 0 || y % 400 == 0)

/-- Number of days in month `m` (1-based) of year `y`. -/
def daysInMonth (y m : Int) : Int :=
  if m = 2 then (if isLeap y then 29 else 28)
  else if m = 4 ∨ m = 6 ∨ m = 9 ∨ m = 11 then 30 else 31

/-- The calendar below is organized around the shifted ("computational")
year that runs from March 1 to the last day of February, so that the leap
day is the last day of a shifted year.  `mp` denotes the shifted month
index (March = 0, ..., February = 11), `doy` the day index within the
shifted year, `yoe` the shifted year within a 400-year era, and `doe` the
day index within the era.  First day of shifted month `mp` within the
shifted year. -/
def doyFromMp (mp d : Int) : Int := (153 * mp + 2) / 5 + d - 1

/-- Shifted month index of a day index within the shifted year. -/
def mpFromDoy (doy : Int) : Int := (5 * doy + 2) / 153

/-- Day of month of a day index within the shifted year. -/
def dayFromDoy (doy : Int) : Int := doy - (153 * mpFromDoy doy + 2) / 5 + 1

/-- Calendar month (1..12) of a shifted month index (0..11). -/
def monthFromMp (mp : Int) : Int := if mp < 10 then mp + 3 else mp - 9

/-- Shifted month index (0..11) of a calendar month (1..12). -/
def mpFromMonth (m : Int) : Int := (m + 9) % 12

/-- First day (within the era) of shifted year `yoe` of the era. -/
def soy (yoe : Int) : Int := 365 * yoe + yoe / 4 - yoe / 100

/-- Shifted year within the era containing day `doe` of the era. -/
def yoeFromDoe (doe : Int) : Int :=
  (doe - doe / 1460 + doe / 36524 - doe / 146096) / 365

/-- Day number (days since 1970-01-01) of the proleptic Gregorian date
`y-m-d`, for `m` in 1..12.  This is the standard era-based conversion
realizing ECMA-262 `MakeDay` on normalized month values; note `/` and `%`
on `Int` are floor-division and its remainder here, matching the
mathematical rounding ECMA-262 prescribes. -/
def daysFromCivil (y m d : Int) : Int :=
  let y2 := if m ≤ 2 then y - 1 else y
  (y2 / 400) * 146097 + (soy (y2 % 400) + doyFromMp (mpFromMonth m) d) - 719468

/-- Date components of day `doe` (0..146096) of era `era`. -/
def civilFromDoe (era doe : Int) : Int × Int × Int :=
  let yoe := yoeFromDoe doe
  let doy := doe - soy yoe
  let m := monthFromMp (mpFromDoy doy)
  let y := yoe + era * 400
  (if m ≤ 2 then y + 1 else y, m, dayFromDoy doy)

/-- Proleptic Gregorian date `(year, month, day)` (month 1-based) of a day
number, realizing ECMA-262 `YearFromTime` / `MonthFromTime` /
`DateFromTime` on whole days. -/
def civilFromDays (z : Int) : Int × Int × Int :=
  civilFromDoe ((z + 719468) / 146097) ((z + 719468) % 146097)

/-- Milliseconds per day. -/
def msPerDay : Int := 86400000

/-- ECMA-262 `MakeFullYear`: integer years 0..99 are interpreted as
1900..1999 by `Date.UTC`. -/
def twoDigitYearAdjust (year : Int) : Int :=
  if 0 ≤ year ∧ year ≤ 99 then 1900 + year else year

/-- Model of `Date.UTC(year, month0, day)` (JavaScript, month 0-based):
the two-digit-year adjustment, then `MakeDay`, which carries an
out-of-range month into the year and adds the day offset in whole days. -/
def dateUTC (year month0 day : Int) : Int :=
  let yr := twoDigitYearAdjust year
  let ym := yr + month0 / 12
  let mn := month0 % 12
  (daysFromCivil ym (mn + 1) 1 + (day - 1)) * msPerDay

/-- ECMA-262 `Day(t)`: the day number containing timestamp `t`. -/
def dayOfTimestamp (t : Int) : Int := t / msPerDay

/-- Model of `Date.prototype.getUTCFullYear`. -/
def getUTCFullYear (t : Int) : Int := (civilFromDays (dayOfTimestamp t)).1

/-- Model of `Date.prototype.getUTCMonth` (0-based month). -/
def getUTCMonth (t : Int) : Int := (civilFromDays (dayOfTimestamp t)).2.1 - 1

/-- Model of `Date.prototype.getUTCDate` (day of month). -/
def getUTCDate (t : Int) : Int := (civilFromDays (dayOfTimestamp t)).2.2

/-- ECMA-262 `LocalTime(t)` for a host whose `getTimezoneOffset()` returns
`tz` minutes (positive west of UTC, as in JavaScript). -/
def localTime (tz t : Int) : Int := t - tz * 60000

/-- Model of `Date.prototype.getFullYear` (local time). -/
def getFullYear (tz t : Int) : Int := getUTCFullYear (localTime tz t)

/-- Model of `Date.prototype.getMonth` (local time, 0-based month). -/
def getMonth (tz t : Int) : Int := getUTCMonth (localTime tz t)

/-- Model of `Date.prototype.getDate` (local time, day of month). -/
def getDate (tz t : Int) : Int := getUTCDate (localTime tz t)

/-- Model of `String(n).padStart(2, c0)` where `c0` is the padding
character: pad on the left to length 2. -/
def padStart2 (c0 : Char) (s : String) : String :=
  if s.length < 2 then String.mk (List.replicate (2 - s.length) c0 ++ s.data) else s

/-- Embedding of `formatDate` from `src/utils/date.ts`.  The source reads
the three components with the local-time accessors `getFullYear`,
`getMonth` and `getDate`, so the host timezone offset `tz` is a parameter.
The year is printed by `String(year)` with no padding; month and day are
zero-padded to two digits. -/
def formatDate (tz : Int) (date : Int) : String :=
  let year := getFullYear tz date
  let month := padStart2 '0' (toString (getMonth tz date + 1))
  let day := padStart2 '0' (toString (getDate tz date))
  toString year ++ "-" ++ month ++ "-" ++ day

/-- Numeric value of a decimal digit character. -/
def digitVal (c : Char) : Nat := c.toNat - 48

/-- Model of matching `dateString` against `^(\d{4})-(\d{2})-(\d{2})$` and
applying `parseInt(-, 10)` to the three capture groups, as `parseDate`
does: exactly ten characters, digits and hyphens in the required
positions, no whitespace and no alternate separators. -/
def matchDateRegex (s : String) : Option (Nat × Nat × Nat) :=
  match s.data with
  | [y1, y2, y3, y4, s1, m1, m2, s2, d1, d2] =>
    if y1.isDigit && y2.isDigit && y3.isDigit && y4.isDigit && s1 == '-' &&
       m1.isDigit && m2.isDigit && s2 == '-' && d1.isDigit && d2.isDigit then
      some (1000 * digitVal y1 + 100 * digitVal y2 + 10 * digitVal y3 + digitVal y4,
            10 * digitVal m1 + digitVal m2,
            10 * digitVal d1 + digitVal d2)
    else none
  | _ => none

/-- Embedding of `parseDate` from `src/utils/date.ts`: match the strict
pattern, build `new Date(Date.UTC(year, month - 1, day))`, and reject the
input unless the constructed date's UTC components equal the parsed
integers.  The result is the timestamp of the constructed `Date`. -/
def parseDate (dateString : String) : Option Int :=
  match matchDateRegex dateString with
  | none => none
  | some (year, month, day) =>
    let t := dateUTC (year : Int) ((month : Int) - 1) (day : Int)
    if getUTCFullYear t = (year : Int) ∧ getUTCMonth t = (month : Int) - 1 ∧
       getUTCDate t = (day : Int) then
      some t
    else none

/-- Embedding of `isValidDate` from `src/utils/date.ts`. -/
def isValidDate (dateString : String) : Bool := (parseDate dateString).isSome

/-- Modelled from the spec (section 4.1 and claim C2): the predicate "the
three parsed integers denote a possible proleptic Gregorian calendar
date", written independently of the parsing code so that the validator
can be compared against it. -/
def isRealGregorianDate (y m d : Int) : Prop :=
  1 ≤ m ∧ m ≤ 12 ∧ 1 ≤ d ∧ d ≤ daysInMonth y m

instance (y m d : Int) : Decidable (isRealGregorianDate y m d) := by
  unfold isRealGregorianDate; infer_instance

/-- Leap-year test on `Nat`, used by the finite checks below. -/
def isLeapN (k : Nat) : Bool := k % 4 == 0 && (k % 100 != 0 || k % 400 == 0)

/-- Length of shifted year `k` of an era: 366 exactly when its trailing
February (of calendar year `k + 1`, wrapping at the era boundary) is
long. -/
def lenShiftedN (k : Nat) : Nat := if isLeapN ((k + 1) % 400) then 366 else 365

/-- First day of shifted year `k`: partial sums of `lenShiftedN`. -/
def soyN (k : Nat) : Nat := 365 * k + k / 4 - k / 100 + k / 400

/-- Shifted year within the era containing day `doe`, on `Nat`. -/
def yoeFromDoeN (doe : Nat) : Nat :=
  (doe - doe / 1460 + doe / 36524 - doe / 146096) / 365

/-- Days in shifted month `mp` (March = 0, ..., February = 11), with `lp`
telling whether the February is long. -/
def dimShiftedN (lp : Bool) (mp : Nat) : Nat :=
  if mp = 11 then (if lp then 29 else 28)
  else if mp = 1 ∨ mp = 3 ∨ mp = 6 ∨ mp = 8 then 30 else 31

/-! Embedding of `src/utils/calendar.ts`.  The romcal engine is an
external black box; it is modelled as an explicit function parameter
returning either a list of raw day records or a thrown error.
JavaScript `Map`s are modelled as insertion-ordered association lists
with the `Map` get/set semantics, and the module-level cache together
with the number of engine invocations (the call counter observable in
tests) forms an explicit state threaded through the functions. -/

/-- One entry of a `liturgicalColor` value: romcal's `{key, value}`
shape. -/
structure ColorEntry where
  key : String
  value : String
deriving DecidableEq

/-- The raw `liturgicalColor` field: a single value or an array. -/
inductive ColorField where
  | single : ColorEntry → ColorField
  | many : List ColorEntry → ColorField
deriving DecidableEq

/-- The raw `moment` field: either an ISO string, or a moment object,
modelled by the string its `format` method renders for the pattern
"YYYY-MM-DD". -/
inductive MomentData where
  | str : String → MomentData
  | obj : String → MomentData
deriving DecidableEq

/-- romcal's `season` record `{key, value}`; only `key` is read. -/
structure SeasonData where
  key : String
  value : String
deriving DecidableEq

/-- A raw romcal day record, keeping exactly the fields `calendar.ts`
reads.  `season` models `day.data?.season` and `liturgicalColor` models
`day.data?.meta?.liturgicalColor`, with `Option` capturing absence at any
level of the optional chain (a present object or array is always truthy
in JavaScript, including an empty array). -/
structure RomcalDay where
  moment : MomentData
  type : String
  name : String
  key : String
  season : Option SeasonData
  liturgicalColor : Option ColorField
deriving DecidableEq

/-- The public response shape (`LiturgicalDayResponse` in `src/types`). -/
structure LiturgicalDayResponse where
  date : String
  id : String
  name : String
  rank : String
  season : String
  color : List String
  isFeast : Bool
  isSolemnity : Bool
  isOptional : Bool
deriving DecidableEq

/-- JavaScript `s.split('T')[0] ?? ''`: the prefix of `s` before the
first 'T'.  (`split` always returns a nonempty array, so the `?? ''` arm
is unreachable; the model is this total function.) -/
def takeBeforeT (s : String) : String :=
  String.mk (s.data.takeWhile (fun c => c != 'T'))

/-- JavaScript `String.prototype.toLowerCase`, character-wise (the romcal
color keys are ASCII, where `Char.toLower` agrees with JavaScript). -/
def jsToLowerCase (s : String) : String := String.mk (s.data.map Char.toLower)

/-- The date string extracted from a raw record's `moment` field, as
computed by the identical expressions in `getCalendar` and
`toLiturgicalDayResponse`. -/
def extractDate (day : RomcalDay) : String :=
  match day.moment with
  | .str s => takeBeforeT s
  | .obj f => f

/-- Embedding of `toLiturgicalDayResponse` from `src/utils/calendar.ts`.
On the `String`-typed fields the source's `x || ''` guards are the
identity (an empty string maps to the empty string), and the optional
chains become `Option` matches.  The function is total: no input raises
an error. -/
def toLiturgicalDayResponse (day : RomcalDay) : LiturgicalDayResponse :=
  let dateStr := extractDate day
  let colors : List String :=
    match day.liturgicalColor with
    | none => []
    | some (.many cs) => cs.map (fun c => jsToLowerCase c.key)
    | some (.single c) => [jsToLowerCase c.key]
  let type := day.type
  { date := dateStr
    id := day.key
    name := day.name
    rank := type
    season := (day.season.map (fun sd => sd.key)).getD ""
    color := colors
    isFeast := type == "FEAST"
    isSolemnity := type == "SOLEMNITY"
    isOptional := type == "OPT_MEMORIAL" }

/-- JavaScript `Map.prototype.get` on an association-list model. -/
def jsMapGet {α : Type} (m : List (String × α)) (k : String) : Option α :=
  (m.find? (fun p => p.1 == k)).map (fun p => p.2)

/-- JavaScript `Map.prototype.set`: overwrite an existing binding in
place, else append in insertion order. -/
def jsMapSet {α : Type} (m : List (String × α)) (k : String) (v : α) :
    List (String × α) :=
  if m.any (fun p => p.1 == k) then
    m.map (fun p => if p.1 == k then (k, v) else p)
  else m ++ [(k, v)]

/-- The date-keyed mapping of one cached calendar. -/
abbrev DateMap := List (String × RomcalDay)

/-- The module-level `calendarCache`. -/
abbrev CalendarCache := List (String × DateMap)

/-- The body of the loop in `getCalendar` that builds the date-keyed
mapping: records whose extracted date string is empty (falsy) are
skipped; others are written with `Map.set`. -/
def buildStep (acc : DateMap) (day : RomcalDay) : DateMap :=
  let dateStr := extractDate day
  if dateStr ≠ "" then jsMapSet acc dateStr day else acc

/-- The mapping `getCalendar` builds from the engine's output list. -/
def buildDateMap (days : List RomcalDay) : DateMap :=
  days.foldl buildStep []

/-- The last record of `days` whose extracted date string equals `k`
(scanning left to right and keeping the latest match). -/
def lastMatch (days : List RomcalDay) (k : String) : Option RomcalDay :=
  days.foldl (fun acc day => if extractDate day == k then some day else acc) none

/-- Process state of the calendar module: the cache and the number of
engine invocations so far. -/
structure CalState where
  cache : CalendarCache
  engineCalls : Nat
deriving DecidableEq

/-- The external romcal engine `calendarFor({year, country})`: a pure
function of its inputs, as the spec assumes, that either returns the
year's raw day records or throws. -/
abbrev Engine := Int → String → Except String (List RomcalDay)

/-- The template-literal cache key built from year and country. -/
def mkCacheKey (year : Int) (country : String) : String :=
  toString year ++ "-" ++ country

/-- Embedding of `getCalendar` from `src/utils/calendar.ts`: return the
cached mapping if present; otherwise invoke the engine, build the
date-keyed mapping, store it under the key, and return it.  A thrown
engine error escapes before the cache is written, and still counts as an
engine invocation. -/
def getCalendar (eng : Engine) (year : Int) (country : String) (st : CalState) :
    Except String DateMap × CalState :=
  let cacheKey := mkCacheKey year country
  match jsMapGet st.cache cacheKey with
  | some m => (.ok m, st)
  | none =>
    match eng year country with
    | .error e => (.error e, { st with engineCalls := st.engineCalls + 1 })
    | .ok days =>
      let dateMap := buildDateMap days
      (.ok dateMap,
        { cache := jsMapSet st.cache cacheKey dateMap,
          engineCalls := st.engineCalls + 1 })

/-- The six supported diocese codes, in declaration order. -/
def SUPPORTED_DIOCESES : List String :=
  ["united-states", "england", "italy", "france", "spain", "germany"]

/-- The default diocese. -/
def DEFAULT_DIOCESE : String := "united-states"

/-- Embedding of `isValidDiocese`: exact, case-sensitive membership. -/
def isValidDiocese (diocese : String) : Bool :=
  SUPPORTED_DIOCESES.contains diocese

/-- A JavaScript value as the bracket lookup on the `DIOCESE_TO_COUNTRY`
object literal can yield it: either a string (the value of an own data
property, or a fallback), or a member inherited from `Object.prototype`
through the prototype chain, identified by its property name.  Every
inherited member is a function -- except the accessor result of
`__proto__`, which is the prototype object itself -- and in particular is
never a string and always truthy. -/
inductive LookupResult where
  | str : String → LookupResult
  | inheritedMember : String → LookupResult
deriving DecidableEq

/-- The property names of `Object.prototype` in ECMAScript: a bracket
access on an object literal that misses every own property consults
these before evaluating to `undefined`. -/
def OBJECT_PROTOTYPE_MEMBERS : List String :=
  ["constructor", "hasOwnProperty", "isPrototypeOf", "propertyIsEnumerable",
   "toLocaleString", "toString", "valueOf", "__defineGetter__",
   "__defineSetter__", "__lookupGetter__", "__lookupSetter__", "__proto__"]

/-- The JavaScript property access `DIOCESE_TO_COUNTRY[diocese]`: the six
own data properties of the record literal first, then the members
inherited from `Object.prototype`, and `undefined` (`none`) only when
both miss. -/
def DIOCESE_TO_COUNTRY (diocese : String) : Option LookupResult :=
  if diocese == "united-states" then some (.str "unitedStates")
  else if diocese == "england" then some (.str "england")
  else if diocese == "italy" then some (.str "italy")
  else if diocese == "france" then some (.str "france")
  else if diocese == "spain" then some (.str "spain")
  else if diocese == "germany" then some (.str "germany")
  else if OBJECT_PROTOTYPE_MEMBERS.contains diocese then
    some (.inheritedMember diocese)
  else none

/-- Embedding of `dioceseToCountry`: the bracket lookup with the
logical-or fallback to the input.  An own property yields its string (an
empty string would be falsy and fall through, faithful to JavaScript
truthiness); an inherited `Object.prototype` member is truthy, so the
fallback does not fire and the member itself is returned -- not the
input string; only an actual `undefined` falls back to the input. -/
def dioceseToCountry (diocese : String) : LookupResult :=
  match DIOCESE_TO_COUNTRY diocese with
  | some (.str v) => if v == "" then .str diocese else .str v
  | some (.inheritedMember n) => .inheritedMember n
  | none => .str diocese

/-- The result of the source's `dioceseToCountry` call, read as the
string the resolver forwards to `getCalendar`.  Every resolver call sits
behind the `isValidDiocese` guard, and on supported codes the lookup is
an own string property (`dioceseToCountry_supported` below), so this
coercion is the identity on every value the resolver actually forwards;
on the guard-unreachable inherited members it takes the member's name. -/
def countryStringOf (diocese : String) : String :=
  match dioceseToCountry diocese with
  | .str s => s
  | .inheritedMember n => n

/-- Embedding of `getLiturgicalDay` from `src/utils/calendar.ts`:
validate the diocese, read the year and the formatted date string of the
`Date` argument (both through local-time accessors, hence the `tz`
parameter), obtain the year's calendar through the cache and look the
date up; any engine error is caught and surfaced as `none`.  The function
is total, so no fault propagates to the caller.  The forwarded country
is `countryStringOf diocese`, which equals the source's
`dioceseToCountry(diocese)` on every code that passes the guard. -/
def getLiturgicalDay (eng : Engine) (tz : Int) (date : Int) (diocese : String)
    (st : CalState) : Option LiturgicalDayResponse × CalState :=
  if ¬ isValidDiocese diocese then (none, st)
  else
    let year := getFullYear tz date
    let country := countryStringOf diocese
    let dateStr := formatDate tz date
    match getCalendar eng year country st with
    | (.error _, st2) => (none, st2)
    | (.ok calendar, st2) =>
      match jsMapGet calendar dateStr with
      | none => (none, st2)
      | some day => (some (toLiturgicalDayResponse day), st2)

/-- Embedding of `clearCalendarCache`. -/
def clearCalendarCache (st : CalState) : CalState :=
  { cache := [], engineCalls := st.engineCalls }

/-- States of the calendar module reachable from process start through
its public operations: every cache interaction of `getLiturgicalDay`,
`getToday` and `getCalendarForYear` goes through `getCalendar` (with
arbitrary arguments here, an over-approximation), and
`clearCalendarCache` resets the cache. -/
inductive Reachable (eng : Engine) : CalState → Prop where
  | init : Reachable eng { cache := [], engineCalls := 0 }
  | step : ∀ (st : CalState) (year : Int) (country : String),
      Reachable eng st → Reachable eng (getCalendar eng year country st).2
  | clear : ∀ (st : CalState),
      Reachable eng st → Reachable eng (clearCalendarCache st)

/-- A raw day record whose moment is the empty string, so its extracted
date string is empty. -/
def emptyMomentDay : RomcalDay :=
  { moment := .str "", type := "", name := "", key := "", season := none,
    liturgicalColor := none }

/-- An engine producing one record that carries an empty date marker. -/
def degenerateEngine : Engine := fun _ _ => .ok [emptyMomentDay]

/-- A well-formed one-record engine used to instantiate theorems. -/
def sampleDay : RomcalDay :=
  { moment := .str "2026-12-25T00:00:00Z", type := "SOLEMNITY",
    name := "Christmas", key := "christmas",
    season := some { key := "CHRISTMASTIDE", value := "Christmastide" },
    liturgicalColor := some (.single { key := "WHITE", value := "White" }) }

/-- The constant engine returning `[sampleDay]`. -/
def sampleEngine : Engine := fun _ _ => .ok [sampleDay]

/-- A second record carrying the same date marker as `sampleDay` but
different content, to exhibit overwriting of duplicates. -/
def sampleDayB : RomcalDay :=
  { sampleDay with name := "Octave", key := "octave", type := "FEAST" }

/-- An engine that always throws. -/
def failingEngine : Engine := fun _ _ => .error "boom"

end TempusBede

namespace TempusBede

/-! Arithmetic facts about the era-based conversion, established by finite
checks over one 400-year era together with monotonicity. -/

set_option maxRecDepth 40000 in
theorem soyN_step : ∀ k, k < 400 → soyN (k + 1) = soyN k + lenShiftedN k := by decide

theorem soyN_400 : soyN 400 = 146097 := by decide

set_option maxRecDepth 40000 in
theorem yoeN_endpoints :
    ∀ k, k < 400 →
      yoeFromDoeN (soyN k) = k ∧ yoeFromDoeN (soyN k + lenShiftedN k - 1) = k := by decide

theorem yoeN_mono_step (n : Nat) : yoeFromDoeN n ≤ yoeFromDoeN (n + 1) := by
  unfold yoeFromDoeN; omega

theorem yoeN_mono : Monotone yoeFromDoeN := monotone_nat_of_le_succ yoeN_mono_step

theorem lenShiftedN_pos (k : Nat) : 0 < lenShiftedN k := by
  unfold lenShiftedN; split <;> omega

theorem soyN_cover :
    ∀ doe, doe < 146097 → ∃ k, k < 400 ∧ soyN k ≤ doe ∧ doe < soyN k + lenShiftedN k := by
  intro doe
  induction doe with
  | zero => exact fun _ => ⟨0, by decide, by decide, by decide⟩
  | succ n ih =>
    intro h
    obtain ⟨k, hk, h1, h2⟩ := ih (by omega)
    by_cases hcase : n + 1 < soyN k + lenShiftedN k
    · exact ⟨k, hk, by omega, hcase⟩
    · have hstep := soyN_step k hk
      have hk1 : k + 1 < 400 := by
        by_contra hge
        have heq : k + 1 = 400 := by omega
        rw [heq] at hstep
        have h400 := soyN_400
        omega
      have hlen := lenShiftedN_pos (k + 1)
      have hstep1 := soyN_step (k + 1) hk1
      have heq : n + 1 = soyN (k + 1) := by omega
      refine ⟨k + 1, hk1, by omega, by omega⟩

theorem yoeN_block :
    ∀ k, k < 400 → ∀ doe, soyN k ≤ doe → doe < soyN k + lenShiftedN k →
      yoeFromDoeN doe = k := by
  intro k hk doe h1 h2
  have e := yoeN_endpoints k hk
  have m1 := yoeN_mono h1
  have m2 : yoeFromDoeN doe ≤ yoeFromDoeN (soyN k + lenShiftedN k - 1) :=
    yoeN_mono (by omega)
  omega

set_option maxRecDepth 40000 in
theorem monthN_forward :
    ∀ (lp : Bool), ∀ mp, mp < 12 → ∀ d, d < 32 → 1 ≤ d → d ≤ dimShiftedN lp mp →
      (153 * mp + 2) / 5 + d - 1 < (if lp then 366 else 365) ∧
      (5 * ((153 * mp + 2) / 5 + d - 1) + 2) / 153 = mp := by decide

theorem isLeap_iff (y : Int) :
    isLeap y = true ↔ (y % 4 = 0 ∧ (y % 100 ≠ 0 ∨ y % 400 = 0)) := by
  unfold isLeap
  simp [Bool.and_eq_true, Bool.or_eq_true, beq_iff_eq, bne_iff_ne]

theorem isLeapN_iff (n : Nat) :
    isLeapN n = true ↔ (n % 4 = 0 ∧ (n % 100 ≠ 0 ∨ n % 400 = 0)) := by
  unfold isLeapN
  simp [Bool.and_eq_true, Bool.or_eq_true, beq_iff_eq, bne_iff_ne]

/-- Whether a calendar year is long depends only on its residue in the
400-year era. -/
theorem isLeap_eq_isLeapN (e : Int) (n : Nat) :
    isLeap (e * 400 + (n : Int)) = isLeapN (n % 400) := by
  rw [Bool.eq_iff_iff, isLeap_iff, isLeapN_iff]
  omega

theorem daysInMonth_feb (yy : Int) :
    daysInMonth yy 2 = if isLeap yy then 29 else 28 := by
  simp [daysInMonth]

/-- For every shifted month except the trailing February, the month length
is year-independent and matches `dimShiftedN`. -/
theorem daysInMonth_monthFromMp (yy : Int) (lp : Bool) :
    ∀ mpN : Nat, mpN < 11 →
      daysInMonth yy (monthFromMp (mpN : Int)) = (dimShiftedN lp mpN : Int) := by
  intro mpN h
  interval_cases mpN <;> norm_num [monthFromMp, daysInMonth, dimShiftedN]

set_option maxRecDepth 40000 in
theorem monthN_reverse :
    ∀ (lp : Bool), ∀ doy, doy < 366 → (doy < (if lp then 366 else 365)) →
      (5 * doy + 2) / 153 < 12 ∧
      (153 * ((5 * doy + 2) / 153) + 2) / 5 ≤ doy ∧
      doy - (153 * ((5 * doy + 2) / 153) + 2) / 5 + 1 ≤
        dimShiftedN lp ((5 * doy + 2) / 153) := by decide

theorem soyN_mono_step (n : Nat) : soyN n ≤ soyN (n + 1) := by
  unfold soyN; omega

theorem soyN_mono : Monotone soyN := monotone_nat_of_le_succ soyN_mono_step

theorem dimShiftedN_le (lp : Bool) (mp : Nat) : dimShiftedN lp mp ≤ 31 := by
  unfold dimShiftedN
  split
  · split <;> omega
  · split <;> omega

/-- Every day of an era decodes to a possible Gregorian date which encodes
back to the same day number. -/
theorem civilFromDoe_spec (era doe : Int) (h0 : 0 ≤ doe) (h1 : doe < 146097) :
    ∃ y m d : Int, civilFromDoe era doe = (y, m, d) ∧ isRealGregorianDate y m d ∧
      daysFromCivil y m d = era * 146097 + doe - 719468 := by
  lift doe to Nat using h0 with doeN hdoe
  replace h1 : doeN < 146097 := by exact_mod_cast h1
  obtain ⟨k, hk400, hb1, hb2⟩ := soyN_cover doeN h1
  have hyoeN : yoeFromDoeN doeN = k := yoeN_block k hk400 doeN hb1 hb2
  have hyoe : yoeFromDoe (doeN : Int) = (k : Int) := by
    rw [← hyoeN]; unfold yoeFromDoe yoeFromDoeN; omega
  have hsoy : soy (k : Int) = (soyN k : Int) := by
    unfold soy soyN; omega
  set doyN := doeN - soyN k with hdoyN
  set lp := isLeapN ((k + 1) % 400) with hlp
  have hlen : lenShiftedN k = if lp then 366 else 365 := rfl
  have h366 : doyN < (if lp then 366 else 365) := by rw [← hlen]; omega
  have h366' : doyN < 366 := by
    rcases lp with _ | _ <;> simp at h366 <;> omega
  obtain ⟨hmp12, hq, hdim⟩ := monthN_reverse lp doyN h366' h366
  set mpN := (5 * doyN + 2) / 153 with hmpN
  set dN := doyN - (153 * mpN + 2) / 5 + 1 with hdN
  have hmpInt : mpFromDoy (doyN : Int) = (mpN : Int) := by
    unfold mpFromDoy; omega
  have hdInt : dayFromDoy (doyN : Int) = (dN : Int) := by
    unfold dayFromDoy
    rw [hmpInt]
    omega
  have hsub : (doeN : Int) - (soyN k : Int) = (doyN : Int) := by omega
  have hdN1 : 1 ≤ dN := by omega
  simp only [civilFromDoe, hyoe, hsoy, hsub, hmpInt, hdInt]
  set base : Int := (k : Int) + era * 400 with hbase
  by_cases hmc : mpN < 10
  · -- months March..December of the shifted year: calendar month mpN + 3
    have hM : monthFromMp (mpN : Int) = (mpN : Int) + 3 := by
      unfold monthFromMp
      rw [if_pos (by exact_mod_cast hmc)]
    have hMgt : ¬ monthFromMp (mpN : Int) ≤ 2 := by rw [hM]; omega
    rw [if_neg hMgt]
    refine ⟨base, monthFromMp (mpN : Int), (dN : Int), rfl, ?_, ?_⟩
    · refine ⟨by rw [hM]; omega, by rw [hM]; omega, by exact_mod_cast hdN1, ?_⟩
      rw [daysInMonth_monthFromMp base lp mpN (by omega)]
      exact_mod_cast hdim
    · simp only [daysFromCivil]
      rw [if_neg hMgt]
      have hdiv : base / 400 = era := by omega
      have hmod : base % 400 = (k : Int) := by omega
      have hmpM : mpFromMonth (monthFromMp (mpN : Int)) = (mpN : Int) := by
        unfold mpFromMonth; rw [hM]; omega
      rw [hdiv, hmod, hmpM, hsoy]
      unfold doyFromMp
      omega
  · -- months January and February: calendar month mpN − 9, next calendar year
    have hM : monthFromMp (mpN : Int) = (mpN : Int) - 9 := by
      unfold monthFromMp
      rw [if_neg (by exact_mod_cast hmc)]
    have hMle : monthFromMp (mpN : Int) ≤ 2 := by rw [hM]; omega
    rw [if_pos hMle]
    refine ⟨base + 1, monthFromMp (mpN : Int), (dN : Int), rfl, ?_, ?_⟩
    · refine ⟨by rw [hM]; omega, by rw [hM]; omega, by exact_mod_cast hdN1, ?_⟩
      rcases Nat.lt_or_ge mpN 11 with hmp11 | hmp11
      · rw [daysInMonth_monthFromMp (base + 1) lp mpN hmp11]
        exact_mod_cast hdim
      · have hmp11' : mpN = 11 := by omega
        have hM2 : monthFromMp (mpN : Int) = 2 := by rw [hM, hmp11']; norm_num
        rw [hM2, daysInMonth_feb]
        have hYsh : base + 1 = era * 400 + ((k + 1 : Nat) : Int) := by push_cast; omega
        rw [hYsh, isLeap_eq_isLeapN era (k + 1), ← hlp]
        have hdim' : dN ≤ dimShiftedN lp 11 := by rw [← hmp11']; exact hdim
        unfold dimShiftedN at hdim'
        simp only [if_pos rfl] at hdim'
        rcases lp with _ | _ <;> simp at hdim' ⊢ <;> omega
    · simp only [daysFromCivil]
      rw [if_pos hMle]
      have hy2 : base + 1 - 1 = base := by omega
      rw [hy2]
      have hdiv : base / 400 = era := by omega
      have hmod : base % 400 = (k : Int) := by omega
      have hmpM : mpFromMonth (monthFromMp (mpN : Int)) = (mpN : Int) := by
        unfold mpFromMonth; rw [hM]; omega
      rw [hdiv, hmod, hmpM, hsoy]
      unfold doyFromMp
      omega

/-- Every possible Gregorian date encodes to a day number that decodes
back to the same components. -/
theorem civilFromDays_daysFromCivil (y m d : Int) (h : isRealGregorianDate y m d) :
    civilFromDays (daysFromCivil y m d) = (y, m, d) := by
  obtain ⟨hm1, hm2, hd1, hd2⟩ := h
  set y2 := if m ≤ 2 then y - 1 else y with hy2
  set era := y2 / 400 with hera
  obtain ⟨k, hk⟩ := Int.eq_ofNat_of_zero_le (a := y2 % 400) (by omega)
  have hk400 : k < 400 := by omega
  have hy2k : y2 = era * 400 + (k : Int) := by omega
  obtain ⟨mpN, hmp⟩ := Int.eq_ofNat_of_zero_le (a := mpFromMonth m) (by unfold mpFromMonth; omega)
  have hmp12 : mpN < 12 := by
    have : mpFromMonth m < 12 := by unfold mpFromMonth; omega
    omega
  have hmM : monthFromMp (mpN : Int) = m := by
    unfold monthFromMp
    unfold mpFromMonth at hmp
    split <;> omega
  have hshift : (m ≤ 2) ↔ ¬ (mpN < 10) := by
    unfold mpFromMonth at hmp
    omega
  set lp := isLeapN ((k + 1) % 400) with hlp
  have hlepy : m ≤ 2 → isLeap y = lp := by
    intro hmle
    have hyk1 : y = era * 400 + ((k + 1 : Nat) : Int) := by
      rw [if_pos hmle] at hy2
      push_cast
      omega
    rw [hyk1, isLeap_eq_isLeapN era (k + 1), hlp]
  have hdim : d ≤ (dimShiftedN lp mpN : Int) := by
    rcases Nat.lt_or_ge mpN 11 with h11 | h11
    · rw [← daysInMonth_monthFromMp y lp mpN h11, hmM]
      exact hd2
    · have h11' : mpN = 11 := by omega
      have hm2' : m = 2 := by
        rw [← hmM, h11']
        norm_num [monthFromMp]
      have hley := hlepy (by omega)
      rw [hm2', daysInMonth_feb, hley] at hd2
      rw [h11']
      rcases lp with _ | _ <;> simp [dimShiftedN] at hd2 ⊢ <;> exact_mod_cast hd2
  obtain ⟨dN, hdN⟩ := Int.eq_ofNat_of_zero_le (a := d) (by omega)
  have hdN1 : 1 ≤ dN := by omega
  have hdNdim : dN ≤ dimShiftedN lp mpN := by omega
  have hdN32 : dN < 32 := by
    have := dimShiftedN_le lp mpN
    omega
  obtain ⟨hdoyBound, hmpRec⟩ := monthN_forward lp mpN hmp12 dN hdN32 hdN1 hdNdim
  set doyN := (153 * mpN + 2) / 5 + dN - 1 with hdoyN
  have hdoyInt : doyFromMp (mpFromMonth m) d = (doyN : Int) := by
    unfold doyFromMp
    rw [hmp]
    omega
  set doeN := soyN k + doyN with hdoeN
  have hsoy : soy (k : Int) = (soyN k : Int) := by
    unfold soy soyN; omega
  have hlen : lenShiftedN k = if lp then 366 else 365 := rfl
  have hdoeBound : doeN < 146097 := by
    have hstep := soyN_step k hk400
    have hle : soyN (k + 1) ≤ soyN 400 := soyN_mono (by omega)
    have h400 := soyN_400
    omega
  have hdays : daysFromCivil y m d = era * 146097 + (doeN : Int) - 719468 := by
    simp only [daysFromCivil]
    rw [← hy2, hdoyInt]
    have hdiv : y2 / 400 = era := by omega
    have hmod : y2 % 400 = (k : Int) := by omega
    rw [hdiv, hmod, hsoy]
    omega
  rw [hdays]
  unfold civilFromDays
  have harg1 : (era * 146097 + (doeN : Int) - 719468 + 719468) / 146097 = era := by omega
  have harg2 : (era * 146097 + (doeN : Int) - 719468 + 719468) % 146097 = (doeN : Int) := by
    omega
  rw [harg1, harg2]
  have hblk : yoeFromDoeN doeN = k := yoeN_block k hk400 doeN (by omega) (by omega)
  have hyoeInt : yoeFromDoe (doeN : Int) = (k : Int) := by
    rw [← hblk]; unfold yoeFromDoe yoeFromDoeN; omega
  simp only [civilFromDoe, hyoeInt, hsoy]
  have hsub : (doeN : Int) - (soyN k : Int) = (doyN : Int) := by omega
  rw [hsub]
  have hmpInt : mpFromDoy (doyN : Int) = (mpN : Int) := by
    unfold mpFromDoy; omega
  rw [hmpInt, hmM]
  have hdInt : dayFromDoy (doyN : Int) = d := by
    unfold dayFromDoy
    rw [hmpInt, hdN]
    omega
  rw [hdInt]
  rcases Nat.lt_or_ge mpN 10 with hmc | hmc
  · rw [if_neg (by omega : ¬ m ≤ 2)]
    have : (k : Int) + era * 400 = y := by
      rw [if_neg (by omega : ¬ m ≤ 2)] at hy2
      omega
    rw [this]
  · rw [if_pos (by omega : m ≤ 2)]
    have : (k : Int) + era * 400 + 1 = y := by
      rw [if_pos (by omega : m ≤ 2)] at hy2
      omega
    rw [this]

/-- Packaging of `civilFromDoe_spec` at the level of day numbers. -/
theorem civilFromDays_spec (z : Int) :
    ∃ Y M D : Int, civilFromDays z = (Y, M, D) ∧ isRealGregorianDate Y M D ∧
      daysFromCivil Y M D = z := by
  obtain ⟨Y, M, D, h1, h2, h3⟩ :=
    civilFromDoe_spec ((z + 719468) / 146097) ((z + 719468) % 146097) (by omega) (by omega)
  exact ⟨Y, M, D, by unfold civilFromDays; exact h1, h2, by rw [h3]; omega⟩

/-- The day offset enters `daysFromCivil` linearly. -/
theorem daysFromCivil_linear (y m d : Int) :
    daysFromCivil y m d = daysFromCivil y m 1 + (d - 1) := by
  simp only [daysFromCivil]
  unfold doyFromMp
  omega

/-- Remapping a two-digit year to the twentieth century moves the encoded
day strictly forward. -/
theorem daysFromCivil_shift1900 (y m d : Int) (h0 : 0 ≤ y) (h99 : y ≤ 99) :
    daysFromCivil y m d < daysFromCivil (1900 + y) m d := by
  simp only [daysFromCivil]
  unfold soy doyFromMp
  split <;> omega

/-- Characterization of the component check in `parseDate`: with the
parsed integers as inputs, the constructed UTC date reproduces them
exactly when the year is at least 100 (smaller years are remapped to
1900..1999 by `Date.UTC`) and the triple is a possible Gregorian date. -/
theorem dateUTC_check (y m d : Nat) :
    (getUTCFullYear (dateUTC (y : Int) ((m : Int) - 1) (d : Int)) = (y : Int) ∧
     getUTCMonth (dateUTC (y : Int) ((m : Int) - 1) (d : Int)) = (m : Int) - 1 ∧
     getUTCDate (dateUTC (y : Int) ((m : Int) - 1) (d : Int)) = (d : Int)) ↔
    (100 ≤ y ∧ isRealGregorianDate (y : Int) (m : Int) (d : Int)) := by
  set yr := twoDigitYearAdjust (y : Int) with hyr
  set G : Int := daysFromCivil (yr + ((m : Int) - 1) / 12) (((m : Int) - 1) % 12 + 1) 1 +
    ((d : Int) - 1) with hG
  have ht : dateUTC (y : Int) ((m : Int) - 1) (d : Int) = G * msPerDay := rfl
  have hday : dayOfTimestamp (G * msPerDay) = G := by
    unfold dayOfTimestamp msPerDay; omega
  obtain ⟨Y, M, D, hc, hreal, hback⟩ := civilFromDays_spec G
  have h1 : getUTCFullYear (G * msPerDay) = Y := by
    unfold getUTCFullYear; rw [hday, hc]
  have h2 : getUTCMonth (G * msPerDay) = M - 1 := by
    unfold getUTCMonth; rw [hday, hc]
  have h3 : getUTCDate (G * msPerDay) = D := by
    unfold getUTCDate; rw [hday, hc]
  rw [ht, h1, h2, h3]
  constructor
  · rintro ⟨e1, e2, e3⟩
    have hM : M = (m : Int) := by omega
    rw [e1, hM, e3] at hreal hback
    obtain ⟨hm1, hm12, hd1, hdim⟩ := hreal
    have hdiv : ((m : Int) - 1) / 12 = 0 := by omega
    have hmod : ((m : Int) - 1) % 12 = (m : Int) - 1 := by omega
    have hGy : G = daysFromCivil yr (m : Int) (d : Int) := by
      rw [hG, hdiv, hmod]
      rw [show yr + 0 = yr from by ring, show (m : Int) - 1 + 1 = (m : Int) from by ring]
      rw [← daysFromCivil_linear]
    by_cases hy99 : y ≤ 99
    · exfalso
      have hyr' : yr = 1900 + (y : Int) := by
        rw [hyr]; unfold twoDigitYearAdjust
        rw [if_pos ⟨by positivity, by exact_mod_cast hy99⟩]
      have hlt := daysFromCivil_shift1900 (y : Int) (m : Int) (d : Int)
        (by positivity) (by exact_mod_cast hy99)
      rw [hGy, hyr'] at hback
      omega
    · refine ⟨by omega, ?_⟩
      exact ⟨hm1, hm12, hd1, hdim⟩
  · rintro ⟨hy100, hreal⟩
    have hyr' : yr = (y : Int) := by
      rw [hyr]; unfold twoDigitYearAdjust
      rw [if_neg (by omega : ¬ (0 ≤ (y : Int) ∧ (y : Int) ≤ 99))]
    obtain ⟨hm1, hm12, hd1, hdim⟩ := hreal
    have hdiv : ((m : Int) - 1) / 12 = 0 := by omega
    have hmod : ((m : Int) - 1) % 12 = (m : Int) - 1 := by omega
    have hGy : G = daysFromCivil (y : Int) (m : Int) (d : Int) := by
      rw [hG, hyr', hdiv, hmod]
      rw [show (y : Int) + 0 = (y : Int) from by ring,
        show (m : Int) - 1 + 1 = (m : Int) from by ring]
      rw [← daysFromCivil_linear]
    have hrt := civilFromDays_daysFromCivil (y : Int) (m : Int) (d : Int)
      ⟨hm1, hm12, hd1, hdim⟩
    rw [hGy] at hc
    rw [hc] at hrt
    have hY : Y = (y : Int) := congrArg Prod.fst hrt
    have hM : M = (m : Int) := congrArg (fun p => p.2.1) hrt
    have hD : D = (d : Int) := congrArg (fun p => p.2.2) hrt
    exact ⟨hY, by rw [hM], hD⟩

/-- C1: the round-trip property `formatDate (parseDate s) = s` fails on
the code.  `formatDate` reads the date through the local-time accessors,
so with a host timezone of UTC-5 (`getTimezoneOffset() = 300`) the
accepted string "2026-01-01" formats back as "2025-12-31"; and even at
UTC offset zero the accepted string "0100-01-01" formats back as
"100-01-01" because the year is printed without zero padding.  Both
contradict the specified UTC-exclusive, strictly inverse formatter. -/
theorem c1_format_parse_divergence :
    isValidDate "0100-01-01" = true ∧
    (parseDate "0100-01-01").map (formatDate 0) = some "100-01-01" ∧
    isValidDate "2026-01-01" = true ∧
    (parseDate "2026-01-01").map (formatDate 300) = some "2025-12-31" := by decide

/-- C2 (amended): `parseDate` returns `none` exactly when the input fails
the strict pattern, or the parsed year lies in 00..99 (such years are
remapped to 1900..1999 by the UTC date constructor, so the component
check always fails), or the three integers denote an impossible Gregorian
date; and `isValidDate` holds exactly when `parseDate` succeeds. -/
theorem c2_parseDate_exactness (s : String) :
    (parseDate s = none ↔
      matchDateRegex s = none ∨
        ∃ y m d : Nat, matchDateRegex s = some (y, m, d) ∧
          (y ≤ 99 ∨ ¬ isRealGregorianDate (y : Int) (m : Int) (d : Int))) ∧
    (isValidDate s = true ↔ parseDate s ≠ none) := by
  constructor
  · unfold parseDate
    cases hm : matchDateRegex s with
    | none => simp
    | some t =>
      obtain ⟨y, m, d⟩ := t
      dsimp only
      split
      · rename_i hcheck
        have hyr := (dateUTC_check y m d).mp hcheck
        constructor
        · intro h
          simp at h
        · rintro (h | ⟨y', m', d', heq, hbad⟩)
          · simp at h
          · have heq' : (y, m, d) = (y', m', d') := Option.some.inj heq
            have hy : y' = y := by
              have := congrArg Prod.fst heq'
              simp at this
              omega
            have hmm : m' = m := by
              have := congrArg (fun p : Nat × Nat × Nat => p.2.1) heq'
              simp at this
              omega
            have hd : d' = d := by
              have := congrArg (fun p : Nat × Nat × Nat => p.2.2) heq'
              simp at this
              omega
            subst hy; subst hmm; subst hd
            rcases hbad with hbad | hbad
            · exact absurd hyr.1 (by omega)
            · exact (hbad hyr.2).elim
      · rename_i hcheck
        constructor
        · intro _
          right
          refine ⟨y, m, d, rfl, ?_⟩
          by_cases hy : y ≤ 99
          · exact Or.inl hy
          · refine Or.inr fun hre => ?_
            exact hcheck ((dateUTC_check y m d).mpr ⟨by omega, hre⟩)
        · intro _
          rfl
  · unfold isValidDate
    cases parseDate s <;> simp

/-- C2 witness: the characterization applied to the impossible date
"2026-02-30". -/
theorem c2_witness : parseDate "2026-02-30" = none :=
  ((c2_parseDate_exactness "2026-02-30").1).mpr
    (Or.inr ⟨2026, 2, 30, by decide, Or.inr (by decide)⟩)

/-- C2: counterexample to the claim as stated.  The string "0050-01-01"
matches the strict pattern and denotes a possible Gregorian date, yet
`parseDate` rejects it (the UTC date constructor reads year 50 as 1950),
so "invalid exactly when non-matching or impossible" fails. -/
theorem c2_counterexample :
    matchDateRegex "0050-01-01" = some (50, 1, 1) ∧
    isRealGregorianDate 50 1 1 ∧
    parseDate "0050-01-01" = none ∧
    isValidDate "0050-01-01" = false := by decide

/-! Association-list facts realizing the JavaScript `Map` semantics. -/

theorem jsMapGet_cons_self {α : Type} (p : String × α) (m : List (String × α))
    (k : String) (h : p.1 = k) : jsMapGet (p :: m) k = some p.2 := by
  unfold jsMapGet
  rw [List.find?_cons_of_pos _ (by simp [h])]
  rfl

theorem jsMapGet_cons_ne {α : Type} (p : String × α) (m : List (String × α))
    (k : String) (h : ¬ p.1 = k) : jsMapGet (p :: m) k = jsMapGet m k := by
  unfold jsMapGet
  rw [List.find?_cons_of_neg _ (by simp [h])]

theorem jsMapGet_replace {α : Type} (m : List (String × α)) (k : String) (v : α) :
    jsMapGet (m.map (fun p => if p.1 == k then (k, v) else p)) k =
      if m.any (fun p => p.1 == k) then some v else none := by
  induction m with
  | nil => simp [jsMapGet]
  | cons p rest ih =>
    by_cases hp : p.1 = k
    · rw [List.map_cons, if_pos (by simp [hp]),
        jsMapGet_cons_self (k, v) _ k rfl]
      simp [hp]
    · rw [List.map_cons, if_neg (by simp [hp]),
        jsMapGet_cons_ne p _ k hp, ih]
      have hfalse : (p.1 == k) = false := by simp [hp]
      rw [List.any_cons, hfalse, Bool.false_or]

theorem jsMapGet_replace_ne {α : Type} (m : List (String × α)) (k k2 : String) (v : α)
    (h : ¬ k2 = k) :
    jsMapGet (m.map (fun p => if p.1 == k then (k, v) else p)) k2 = jsMapGet m k2 := by
  induction m with
  | nil => rfl
  | cons p rest ih =>
    simp only [List.map_cons]
    by_cases hp : p.1 = k
    · rw [if_pos (by simp [hp])]
      rw [jsMapGet_cons_ne (k, v) _ k2 (fun e => h e.symm)]
      rw [jsMapGet_cons_ne p _ k2 (by rw [hp]; exact fun e => h e.symm)]
      exact ih
    · rw [if_neg (by simp [hp])]
      by_cases hp2 : p.1 = k2
      · rw [jsMapGet_cons_self p _ k2 hp2, jsMapGet_cons_self p _ k2 hp2]
      · rw [jsMapGet_cons_ne p _ k2 hp2, jsMapGet_cons_ne p _ k2 hp2, ih]

theorem jsMapGet_append_self {α : Type} (m : List (String × α)) (k : String) (v : α)
    (h : m.any (fun p => p.1 == k) = false) :
    jsMapGet (m ++ [(k, v)]) k = some v := by
  induction m with
  | nil => exact jsMapGet_cons_self (k, v) [] k rfl
  | cons p rest ih =>
    rw [List.any_cons, Bool.or_eq_false_iff] at h
    rw [List.cons_append, jsMapGet_cons_ne p _ k (by simpa using h.1)]
    exact ih h.2

theorem jsMapGet_append_ne {α : Type} (m : List (String × α)) (k k2 : String) (v : α)
    (h : ¬ k2 = k) :
    jsMapGet (m ++ [(k, v)]) k2 = jsMapGet m k2 := by
  induction m with
  | nil =>
    rw [List.nil_append, jsMapGet_cons_ne (k, v) [] k2 (fun e => h e.symm)]
  | cons p rest ih =>
    rw [List.cons_append]
    by_cases hp : p.1 = k2
    · rw [jsMapGet_cons_self p _ k2 hp, jsMapGet_cons_self p _ k2 hp]
    · rw [jsMapGet_cons_ne p _ k2 hp, jsMapGet_cons_ne p _ k2 hp, ih]

theorem jsMapGet_jsMapSet_self {α : Type} (m : List (String × α)) (k : String) (v : α) :
    jsMapGet (jsMapSet m k v) k = some v := by
  unfold jsMapSet
  split
  · rename_i hany
    rw [jsMapGet_replace, if_pos hany]
  · rename_i hany
    exact jsMapGet_append_self m k v (by rwa [Bool.not_eq_true] at hany)

theorem jsMapGet_jsMapSet_ne {α : Type} (m : List (String × α)) (k k2 : String) (v : α)
    (h : ¬ k2 = k) : jsMapGet (jsMapSet m k v) k2 = jsMapGet m k2 := by
  unfold jsMapSet
  split
  · exact jsMapGet_replace_ne m k k2 v h
  · exact jsMapGet_append_ne m k k2 v h

/-- One step of the map-building loop, seen through a lookup at a
nonempty key. -/
theorem jsMapGet_buildStep (acc : DateMap) (day : RomcalDay) (k : String)
    (hk : ¬ k = "") :
    jsMapGet (buildStep acc day) k =
      if extractDate day == k then some day else jsMapGet acc k := by
  simp only [buildStep]
  by_cases hd : extractDate day = ""
  · rw [if_neg (by simp [hd])]
    rw [if_neg (by simp [hd]; exact fun e => hk e.symm)]
  · rw [if_pos hd]
    by_cases he : extractDate day = k
    · rw [if_pos (by simp [he])]
      rw [he]
      exact jsMapGet_jsMapSet_self acc k day
    · rw [if_neg (by simp [he])]
      exact jsMapGet_jsMapSet_ne acc (extractDate day) k day (fun e => he e.symm)

theorem jsMapGet_buildStep_fold (k : String) (hk : ¬ k = "") :
    ∀ (days : List RomcalDay) (acc : DateMap),
      jsMapGet (days.foldl buildStep acc) k =
        days.foldl (fun r day => if extractDate day == k then some day else r)
          (jsMapGet acc k) := by
  intro days
  induction days with
  | nil => intro acc; rfl
  | cons day rest ih =>
    intro acc
    rw [List.foldl_cons, List.foldl_cons, ih]
    rw [jsMapGet_buildStep acc day k hk]

/-- Looking up a nonempty key in the built mapping yields the last record
with that date. -/
theorem jsMapGet_buildDateMap (days : List RomcalDay) (k : String) (hk : ¬ k = "") :
    jsMapGet (buildDateMap days) k = lastMatch days k := by
  unfold buildDateMap lastMatch
  rw [jsMapGet_buildStep_fold k hk days []]
  rfl

theorem jsMapGet_buildStep_fold_empty :
    ∀ (days : List RomcalDay) (acc : DateMap), jsMapGet acc "" = none →
      jsMapGet (days.foldl buildStep acc) "" = none := by
  intro days
  induction days with
  | nil => intro acc h; exact h
  | cons day rest ih =>
    intro acc h
    rw [List.foldl_cons]
    apply ih
    simp only [buildStep]
    by_cases hd : extractDate day = ""
    · rw [if_neg (by simp [hd])]
      exact h
    · rw [if_pos hd]
      rw [jsMapGet_jsMapSet_ne acc (extractDate day) "" day (fun e => hd e.symm)]
      exact h

/-- The empty string is never bound in the built mapping. -/
theorem jsMapGet_buildDateMap_empty (days : List RomcalDay) :
    jsMapGet (buildDateMap days) "" = none :=
  jsMapGet_buildStep_fold_empty days [] rfl

/-! The three paths through `getCalendar`. -/

theorem getCalendar_hit (eng : Engine) (year : Int) (country : String) (st : CalState)
    (m : DateMap) (h : jsMapGet st.cache (mkCacheKey year country) = some m) :
    getCalendar eng year country st = (.ok m, st) := by
  simp only [getCalendar]
  rw [h]

theorem getCalendar_miss_error (eng : Engine) (year : Int) (country : String)
    (st : CalState) (e : String)
    (hm : jsMapGet st.cache (mkCacheKey year country) = none)
    (he : eng year country = .error e) :
    getCalendar eng year country st =
      (.error e, { cache := st.cache, engineCalls := st.engineCalls + 1 }) := by
  simp only [getCalendar]
  rw [hm, he]

theorem getCalendar_miss_ok (eng : Engine) (year : Int) (country : String)
    (st : CalState) (days : List RomcalDay)
    (hm : jsMapGet st.cache (mkCacheKey year country) = none)
    (he : eng year country = .ok days) :
    getCalendar eng year country st =
      (.ok (buildDateMap days),
        { cache := jsMapSet st.cache (mkCacheKey year country) (buildDateMap days),
          engineCalls := st.engineCalls + 1 }) := by
  simp only [getCalendar]
  rw [hm, he]

/-- C6: an unsupported diocese is rejected before any cache or engine
interaction: the resolver returns `none`, and the returned state is the
input state itself (cache untouched, no engine invocation counted). -/
theorem c6_invalid_diocese_rejected (eng : Engine) (tz date : Int) (diocese : String)
    (st : CalState) (hv : isValidDiocese diocese = false) :
    getLiturgicalDay eng tz date diocese st = (none, st) := by
  unfold getLiturgicalDay
  rw [hv]
  simp

/-- C6 witness: the rejection theorem applied to the unsupported code
"mexico" on a nonempty state. -/
theorem c6_witness :
    getLiturgicalDay sampleEngine 0 0 "mexico" { cache := [], engineCalls := 5 } =
      (none, { cache := [], engineCalls := 5 }) :=
  c6_invalid_diocese_rejected sampleEngine 0 0 "mexico"
    { cache := [], engineCalls := 5 } (by decide)

/-- On supported codes the bracket lookup hits an own string property, so
the string the resolver forwards (`countryStringOf`) is exactly the value
the source's `dioceseToCountry` returns there: the coercion inside the
resolver's guard is the identity. -/
theorem dioceseToCountry_supported (diocese : String)
    (h : isValidDiocese diocese = true) :
    dioceseToCountry diocese = .str (countryStringOf diocese) := by
  have h6 : diocese = "united-states" ∨ diocese = "england" ∨ diocese = "italy" ∨
      diocese = "france" ∨ diocese = "spain" ∨ diocese = "germany" := by
    unfold isValidDiocese SUPPORTED_DIOCESES at h
    simpa using h
  rcases h6 with rfl | rfl | rfl | rfl | rfl | rfl <;> rfl

/-- The coercion-identity lemma exercised on each supported code. -/
theorem dioceseToCountry_supported_witness :
    dioceseToCountry "united-states" = .str (countryStringOf "united-states") :=
  dioceseToCountry_supported "united-states" (by decide)

/-- C7 (amended): the registry mapping sends "united-states" to
"unitedStates" and each of the other five supported codes to itself; a
code outside the supported set that is not the name of an inherited
`Object.prototype` member falls through to the input string unchanged
rather than failing; but on each of the twelve inherited member names the
bracket lookup yields the truthy inherited member, so the logical-or
fallback does not fire and the result is that member, not the input
string. -/
theorem c7_dioceseToCountry_mapping :
    dioceseToCountry "united-states" = .str "unitedStates" ∧
    dioceseToCountry "england" = .str "england" ∧
    dioceseToCountry "italy" = .str "italy" ∧
    dioceseToCountry "france" = .str "france" ∧
    dioceseToCountry "spain" = .str "spain" ∧
    dioceseToCountry "germany" = .str "germany" ∧
    (∀ s : String, s ∉ SUPPORTED_DIOCESES → s ∉ OBJECT_PROTOTYPE_MEMBERS →
      dioceseToCountry s = .str s) ∧
    (∀ s : String, s ∈ OBJECT_PROTOTYPE_MEMBERS →
      dioceseToCountry s = .inheritedMember s ∧
      dioceseToCountry s ≠ .str s) := by
  refine ⟨by decide, by decide, by decide, by decide, by decide, by decide, ?_, ?_⟩
  · intro s hs hp
    simp only [SUPPORTED_DIOCESES, List.mem_cons, List.not_mem_nil, or_false,
      not_or] at hs
    obtain ⟨h1, h2, h3, h4, h5, h6⟩ := hs
    have hc : OBJECT_PROTOTYPE_MEMBERS.contains s = false := by simpa using hp
    unfold dioceseToCountry DIOCESE_TO_COUNTRY
    rw [if_neg (by simp [h1]), if_neg (by simp [h2]), if_neg (by simp [h3]),
      if_neg (by simp [h4]), if_neg (by simp [h5]), if_neg (by simp [h6]),
      if_neg (by rw [hc]; simp)]
  · intro s hp
    simp only [OBJECT_PROTOTYPE_MEMBERS, List.mem_cons, List.not_mem_nil,
      or_false] at hp
    rcases hp with rfl | rfl | rfl | rfl | rfl | rfl | rfl | rfl | rfl | rfl | rfl | rfl <;>
      exact ⟨by decide, by decide⟩

/-- C7 witness: the fallback clause at the unsupported, non-inherited
code "mexico", and the inherited-member clause at "toString". -/
theorem c7_witness :
    dioceseToCountry "mexico" = .str "mexico" ∧
    dioceseToCountry "toString" = .inheritedMember "toString" :=
  ⟨c7_dioceseToCountry_mapping.2.2.2.2.2.2.1 "mexico" (by decide) (by decide),
    (c7_dioceseToCountry_mapping.2.2.2.2.2.2.2 "toString" (by decide)).1⟩

/-- C7: counterexample to the claim as stated.  "toString" is outside
the supported set, yet the bracket lookup finds the inherited truthy
`Object.prototype.toString`, the logical-or fallback does not fire, and
`dioceseToCountry` returns that member -- not the input string
unchanged. -/
theorem c7_counterexample :
    "toString" ∉ SUPPORTED_DIOCESES ∧
    DIOCESE_TO_COUNTRY "toString" = some (.inheritedMember "toString") ∧
    dioceseToCountry "toString" ≠ .str "toString" := by
  refine ⟨by decide, by decide, by decide⟩

/-- C8: each rank flag of a normalized response equals the equality test
of its rank string against the corresponding literal; consequently no two
flags hold together, and when the rank is none of the three recognized
literals all three flags are false.  (The normalizer is a total function,
so no input raises an error.) -/
theorem c8_rank_flags (day : RomcalDay) :
    ((toLiturgicalDayResponse day).isSolemnity =
      ((toLiturgicalDayResponse day).rank == "SOLEMNITY")) ∧
    ((toLiturgicalDayResponse day).isFeast =
      ((toLiturgicalDayResponse day).rank == "FEAST")) ∧
    ((toLiturgicalDayResponse day).isOptional =
      ((toLiturgicalDayResponse day).rank == "OPT_MEMORIAL")) ∧
    (¬ ((toLiturgicalDayResponse day).isSolemnity = true ∧
        (toLiturgicalDayResponse day).isFeast = true)) ∧
    (¬ ((toLiturgicalDayResponse day).isSolemnity = true ∧
        (toLiturgicalDayResponse day).isOptional = true)) ∧
    (¬ ((toLiturgicalDayResponse day).isFeast = true ∧
        (toLiturgicalDayResponse day).isOptional = true)) ∧
    ((toLiturgicalDayResponse day).rank ≠ "SOLEMNITY" →
      (toLiturgicalDayResponse day).rank ≠ "FEAST" →
      (toLiturgicalDayResponse day).rank ≠ "OPT_MEMORIAL" →
      (toLiturgicalDayResponse day).isSolemnity = false ∧
      (toLiturgicalDayResponse day).isFeast = false ∧
      (toLiturgicalDayResponse day).isOptional = false) := by
  simp only [toLiturgicalDayResponse]
  refine ⟨trivial, trivial, trivial, ?_, ?_, ?_, ?_⟩
  · rintro ⟨h1, h2⟩
    rw [beq_iff_eq] at h1 h2
    rw [h1] at h2
    exact absurd h2 (by decide)
  · rintro ⟨h1, h2⟩
    rw [beq_iff_eq] at h1 h2
    rw [h1] at h2
    exact absurd h2 (by decide)
  · rintro ⟨h1, h2⟩
    rw [beq_iff_eq] at h1 h2
    rw [h1] at h2
    exact absurd h2 (by decide)
  · intro hs hf ho
    exact ⟨by simp [hs], by simp [hf], by simp [ho]⟩

/-- C8 witness: the flag characterization applied to `sampleDay` (rank
"SOLEMNITY") -- the unrecognized-rank clause is exercised through
`emptyMomentDay` (rank ""). -/
theorem c8_witness :
    (toLiturgicalDayResponse sampleDay).isSolemnity = true ∧
    (toLiturgicalDayResponse emptyMomentDay).isSolemnity = false ∧
    (toLiturgicalDayResponse emptyMomentDay).isFeast = false ∧
    (toLiturgicalDayResponse emptyMomentDay).isOptional = false := by
  have h := (c8_rank_flags emptyMomentDay).2.2.2.2.2.2
    (by decide) (by decide) (by decide)
  exact ⟨by decide, h.1, h.2.1, h.2.2⟩

/-- C9: the normalized color list is empty when the raw color field is
absent, the one-element list of the lowercased identifier for a single
raw value, and the element-wise lowercased-identifier image (through
`List.map`, which preserves order and length) when the raw field is a
list. -/
theorem c9_colors (day : RomcalDay) :
    (day.liturgicalColor = none → (toLiturgicalDayResponse day).color = []) ∧
    (∀ c, day.liturgicalColor = some (ColorField.single c) →
      (toLiturgicalDayResponse day).color = [jsToLowerCase c.key]) ∧
    (∀ cs, day.liturgicalColor = some (ColorField.many cs) →
      (toLiturgicalDayResponse day).color = cs.map (fun c => jsToLowerCase c.key)) := by
  refine ⟨fun h => ?_, fun c h => ?_, fun cs h => ?_⟩ <;>
    simp [toLiturgicalDayResponse, h]

/-- C9 witness: the single-value clause applied to `sampleDay`, whose raw
color is the single entry with key "WHITE". -/
theorem c9_witness : (toLiturgicalDayResponse sampleDay).color = ["white"] := by
  rw [(c9_colors sampleDay).2.1 { key := "WHITE", value := "White" } rfl]
  decide

/-- C10: in the cache-entry construction, every nonempty date string is
bound to the last record in the engine's list whose extracted date equals
it (later duplicates overwrite earlier ones), and records with an empty
extracted date string are omitted: the empty string is bound to
nothing. -/
theorem c10_buildDateMap_last_wins (days : List RomcalDay) (k : String) :
    (k ≠ "" → jsMapGet (buildDateMap days) k = lastMatch days k) ∧
    jsMapGet (buildDateMap days) "" = none :=
  ⟨fun hk => jsMapGet_buildDateMap days k hk, jsMapGet_buildDateMap_empty days⟩

/-- When the diocese is not supported, the resolver is the identity on
state. -/
theorem getLiturgicalDay_invalid (eng : Engine) (tz date : Int) (diocese : String)
    (st : CalState) (hv : ¬ isValidDiocese diocese = true) :
    getLiturgicalDay eng tz date diocese st = (none, st) := by
  simp only [getLiturgicalDay]
  rw [if_pos hv]

/-- When the diocese is supported, the resolver is the cache lookup
followed by the per-day lookup. -/
theorem getLiturgicalDay_valid (eng : Engine) (tz date : Int) (diocese : String)
    (st : CalState) (hv : isValidDiocese diocese = true) :
    getLiturgicalDay eng tz date diocese st =
      (match getCalendar eng (getFullYear tz date) (countryStringOf diocese) st with
       | (.error _, st2) => (none, st2)
       | (.ok calendar, st2) =>
         match jsMapGet calendar (formatDate tz date) with
         | none => (none, st2)
         | some day => (some (toLiturgicalDayResponse day), st2)) := by
  simp only [getLiturgicalDay]
  rw [if_neg (by simp [hv])]

/-- A resolver call whose (year, country) key is already cached returns
the input state unchanged. -/
theorem getLiturgicalDay_cached_fix (eng : Engine) (tz date : Int) (diocese : String)
    (st : CalState) (m : DateMap)
    (h : jsMapGet st.cache
      (mkCacheKey (getFullYear tz date) (countryStringOf diocese)) = some m) :
    (getLiturgicalDay eng tz date diocese st).2 = st := by
  by_cases hv : isValidDiocese diocese = true
  · rw [getLiturgicalDay_valid eng tz date diocese st hv,
      getCalendar_hit eng _ _ st m h]
    dsimp only
    cases jsMapGet m (formatDate tz date) <;> rfl
  · rw [getLiturgicalDay_invalid eng tz date diocese st hv]

/-- C3: resolving the same (date, diocese) twice from any state yields
equal responses; and whenever the first call has left the cache entry for
the derived (year, engine identifier) key populated, a later
`getCalendar` on that key returns the stored mapping with the state
unchanged (no new engine invocation), so the second resolve leaves the
state fixed. -/
theorem c3_resolver_idempotent (eng : Engine) (tz date : Int) (diocese : String)
    (st : CalState) :
    ((getLiturgicalDay eng tz date diocese
        ((getLiturgicalDay eng tz date diocese st).2)).1 =
      (getLiturgicalDay eng tz date diocese st).1) ∧
    (∀ m, jsMapGet ((getLiturgicalDay eng tz date diocese st).2).cache
        (mkCacheKey (getFullYear tz date) (countryStringOf diocese)) = some m →
      (getCalendar eng (getFullYear tz date) (countryStringOf diocese)
          ((getLiturgicalDay eng tz date diocese st).2) =
        (.ok m, (getLiturgicalDay eng tz date diocese st).2)) ∧
      ((getLiturgicalDay eng tz date diocese
          ((getLiturgicalDay eng tz date diocese st).2)).2 =
        (getLiturgicalDay eng tz date diocese st).2)) := by
  constructor
  · by_cases hv : isValidDiocese diocese = true
    · rcases hjm : jsMapGet st.cache
        (mkCacheKey (getFullYear tz date) (countryStringOf diocese)) with _ | m
      · rcases heng : eng (getFullYear tz date) (countryStringOf diocese) with e | days
        · have h1 := getCalendar_miss_error eng _ _ st e hjm heng
          set st1 : CalState :=
            { cache := st.cache, engineCalls := st.engineCalls + 1 } with hst1
          rw [getLiturgicalDay_valid eng tz date diocese st hv, h1]
          dsimp only
          rw [getLiturgicalDay_valid eng tz date diocese st1 hv,
            getCalendar_miss_error eng _ _ st1 e (by rw [hst1]; exact hjm) heng]
        · have h1 := getCalendar_miss_ok eng _ _ st days hjm heng
          set st1 : CalState :=
            { cache := jsMapSet st.cache
                (mkCacheKey (getFullYear tz date) (countryStringOf diocese))
                (buildDateMap days),
              engineCalls := st.engineCalls + 1 } with hst1
          rw [getLiturgicalDay_valid eng tz date diocese st hv, h1]
          dsimp only
          have h2 : getCalendar eng (getFullYear tz date) (countryStringOf diocese)
              st1 = (.ok (buildDateMap days), st1) :=
            getCalendar_hit eng _ _ st1 (buildDateMap days)
              (by rw [hst1]
                  exact jsMapGet_jsMapSet_self st.cache _ (buildDateMap days))
          rcases hlook : jsMapGet (buildDateMap days) (formatDate tz date) with _ | day
          · dsimp only
            rw [getLiturgicalDay_valid eng tz date diocese st1 hv, h2]
            dsimp only
            rw [hlook]
          · dsimp only
            rw [getLiturgicalDay_valid eng tz date diocese st1 hv, h2]
            dsimp only
            rw [hlook]
      · have hfix := getLiturgicalDay_cached_fix eng tz date diocese st m hjm
        rw [hfix]
    · rw [getLiturgicalDay_invalid eng tz date diocese st hv]
      dsimp only
      rw [getLiturgicalDay_invalid eng tz date diocese st hv]
  · intro m hm
    exact ⟨getCalendar_hit eng _ _ _ m hm,
      getLiturgicalDay_cached_fix eng tz date diocese _ m hm⟩

/-- C3 witness: the idempotence theorem applied to the sample engine at
the epoch date for "united-states", with the populated-entry clause
instantiated at the mapping the first call stored. -/
theorem c3_witness :
    ((getLiturgicalDay sampleEngine 0 0 "united-states"
        ((getLiturgicalDay sampleEngine 0 0 "united-states"
          { cache := [], engineCalls := 0 }).2)).1 =
      (getLiturgicalDay sampleEngine 0 0 "united-states"
        { cache := [], engineCalls := 0 }).1) ∧
    (getCalendar sampleEngine (getFullYear 0 0) (countryStringOf "united-states")
        ((getLiturgicalDay sampleEngine 0 0 "united-states"
          { cache := [], engineCalls := 0 }).2) =
      (.ok (buildDateMap [sampleDay]),
        (getLiturgicalDay sampleEngine 0 0 "united-states"
          { cache := [], engineCalls := 0 }).2)) :=
  ⟨(c3_resolver_idempotent sampleEngine 0 0 "united-states"
      { cache := [], engineCalls := 0 }).1,
    ((c3_resolver_idempotent sampleEngine 0 0 "united-states"
        { cache := [], engineCalls := 0 }).2
      (buildDateMap [sampleDay]) (by decide)).1⟩

/-- C4: when the diocese is supported, the key is not cached and the
engine throws, the resolver catches the fault and returns `none` with
the cache unchanged (only the invocation counter advances); since
`getLiturgicalDay` is a total function, no engine fault propagates past
it. -/
theorem c4_engine_failure_caught (eng : Engine) (tz date : Int) (diocese : String)
    (st : CalState) (e : String)
    (hv : isValidDiocese diocese = true)
    (hmiss : jsMapGet st.cache
      (mkCacheKey (getFullYear tz date) (countryStringOf diocese)) = none)
    (herr : eng (getFullYear tz date) (countryStringOf diocese) = .error e) :
    getLiturgicalDay eng tz date diocese st =
      (none, { cache := st.cache, engineCalls := st.engineCalls + 1 }) := by
  rw [getLiturgicalDay_valid eng tz date diocese st hv,
    getCalendar_miss_error eng _ _ st e hmiss herr]

/-- C4 witness: the engine-failure theorem applied to the always-throwing
engine for "england" at the epoch date. -/
theorem c4_witness :
    getLiturgicalDay failingEngine 0 0 "england" { cache := [], engineCalls := 0 } =
      (none, { cache := [], engineCalls := 1 }) :=
  c4_engine_failure_caught failingEngine 0 0 "england"
    { cache := [], engineCalls := 0 } "boom" (by decide) rfl rfl

theorem foldl_lastStep_isSome (k : String) :
    ∀ (days : List RomcalDay) (acc : Option RomcalDay), acc.isSome = true →
      (days.foldl (fun r day => if extractDate day == k then some day else r)
        acc).isSome = true := by
  intro days
  induction days with
  | nil => intro acc h; exact h
  | cons d rest ih =>
    intro acc h
    rw [List.foldl_cons]
    apply ih
    by_cases hd : extractDate d = k
    · rw [if_pos (by simp [hd])]; rfl
    · rw [if_neg (by simp [hd])]; exact h

theorem lastMatch_mem_isSome (k : String) :
    ∀ (days : List RomcalDay) (day : RomcalDay), day ∈ days → extractDate day = k →
      (lastMatch days k).isSome = true := by
  intro days
  induction days with
  | nil => intro day h _; exact absurd h (List.not_mem_nil day)
  | cons d rest ih =>
    intro day hmem hext
    unfold lastMatch
    rw [List.foldl_cons]
    rcases List.mem_cons.mp hmem with rfl | hmem2
    · rw [if_pos (by simp [hext])]
      exact foldl_lastStep_isSome k rest (some day) rfl
    · by_cases hd : extractDate d = k
      · rw [if_pos (by simp [hd])]
        exact foldl_lastStep_isSome k rest (some d) rfl
      · rw [if_neg (by simp [hd])]
        have := ih day hmem2 hext
        unfold lastMatch at this
        exact this

/-- Every record of the engine output with a nonempty extracted date has
a binding in the built mapping. -/
theorem buildDateMap_binds (days : List RomcalDay) (day : RomcalDay)
    (hmem : day ∈ days) (hne : extractDate day ≠ "") :
    (jsMapGet (buildDateMap days) (extractDate day)).isSome = true := by
  rw [jsMapGet_buildDateMap days (extractDate day) hne]
  exact lastMatch_mem_isSome (extractDate day) days day hmem rfl

/-- C5 (amended): in every reachable state, a populated cache entry is the
full mapping built from one engine output: it is `buildDateMap` of the
records the engine produced for its key, and so contains a binding for
every produced record whose extracted date string is nonempty.  Records
with an empty extracted date string are omitted, which is what the
counterexample below exhibits against the claim as stated. -/
theorem c5_cache_entries_complete (eng : Engine) (st : CalState) (h : Reachable eng st)
    (k : String) (m : DateMap) (hk : jsMapGet st.cache k = some m) :
    ∃ (year : Int) (country : String) (days : List RomcalDay),
      k = mkCacheKey year country ∧ eng year country = .ok days ∧
      m = buildDateMap days ∧
      ∀ day ∈ days, extractDate day ≠ "" →
        (jsMapGet m (extractDate day)).isSome = true := by
  revert hk
  induction h with
  | init => intro hk; exact absurd hk (by simp [jsMapGet])
  | step st0 year country hr ih =>
    intro hk
    rcases hjm : jsMapGet st0.cache (mkCacheKey year country) with _ | m0
    · rcases heng : eng year country with e | days
      · rw [getCalendar_miss_error eng year country st0 e hjm heng] at hk
        dsimp only at hk
        exact ih hk
      · rw [getCalendar_miss_ok eng year country st0 days hjm heng] at hk
        dsimp only at hk
        by_cases hkk : k = mkCacheKey year country
        · subst hkk
          rw [jsMapGet_jsMapSet_self] at hk
          have hm : m = buildDateMap days := (Option.some.inj hk).symm
          subst hm
          refine ⟨year, country, days, rfl, heng, rfl, ?_⟩
          intro day hmem hne
          exact buildDateMap_binds days day hmem hne
        · rw [jsMapGet_jsMapSet_ne st0.cache (mkCacheKey year country) k
            (buildDateMap days) hkk] at hk
          exact ih hk
    · rw [getCalendar_hit eng year country st0 m0 hjm] at hk
      dsimp only at hk
      exact ih hk
  | clear st0 hr ih =>
    intro hk
    exact absurd hk (by simp [clearCalendarCache, jsMapGet])

/-- C5: counterexample to the claim as stated.  With an engine producing
one record whose date marker is empty, the cache entry for the key is
populated (it is the empty mapping), the engine produced that record for
the year, yet the entry contains no binding for it -- so a populated
entry need not bind every produced day record. -/
theorem c5_counterexample :
    jsMapGet (getCalendar degenerateEngine 2026 "unitedStates"
        { cache := [], engineCalls := 0 }).2.cache (mkCacheKey 2026 "unitedStates") =
      some [] ∧
    degenerateEngine 2026 "unitedStates" = .ok [emptyMomentDay] ∧
    jsMapGet ([] : DateMap) (extractDate emptyMomentDay) = none :=
  ⟨by decide, rfl, by decide⟩

/-- C5 witness: the completeness invariant applied to the state reached
by one `getCalendar` call on the sample engine. -/
theorem c5_witness :
    ∃ (year : Int) (country : String) (days : List RomcalDay),
      mkCacheKey 2026 "unitedStates" = mkCacheKey year country ∧
      sampleEngine year country = .ok days ∧
      buildDateMap [sampleDay] = buildDateMap days ∧
      ∀ day ∈ days, extractDate day ≠ "" →
        (jsMapGet (buildDateMap [sampleDay]) (extractDate day)).isSome = true :=
  c5_cache_entries_complete sampleEngine _
    (Reachable.step { cache := [], engineCalls := 0 } 2026 "unitedStates" Reachable.init)
    (mkCacheKey 2026 "unitedStates") (buildDateMap [sampleDay]) (by decide)

/-- C10 witness: with two records carrying the date "2026-12-25", the
lookup returns the later one, and the degenerate record with an empty
date marker is not bound. -/
theorem c10_witness :
    jsMapGet (buildDateMap [sampleDay, sampleDayB, emptyMomentDay]) "2026-12-25" =
      lastMatch [sampleDay, sampleDayB, emptyMomentDay] "2026-12-25" ∧
    lastMatch [sampleDay, sampleDayB, emptyMomentDay] "2026-12-25" = some sampleDayB ∧
    jsMapGet (buildDateMap [sampleDay, sampleDayB, emptyMomentDay]) "" = none :=
  ⟨(c10_buildDateMap_last_wins [sampleDay, sampleDayB, emptyMomentDay] "2026-12-25").1
      (by decide),
    by decide,
    (c10_buildDateMap_last_wins [sampleDay, sampleDayB, emptyMomentDay] "x").2⟩

end TempusBede
